import Mathlib

/-!
Verification development for the minesweeper repository.

The definitions below are a shallow embedding of `src/grid.rs` and
`src/game.rs`.  Rust `i32` values become `Int`, `u8` counters become `Nat`
(the counters stay far below 256 in every reachable state), `Vec<Cell>`
becomes `List Cell`, and the Rust methods become pure functions that return
the updated grid.  Fallible operations return `Option`: a `none` result
models a Rust panic (the `.unwrap()` calls on `coord_to_index`, which fail
exactly on out-of-bounds coordinates).  The recursive flood fill in
`Grid::uncover` is embedded with an explicit fuel parameter bounding the
recursion depth; `Grid.uncover` instantiates the fuel with a proven-
sufficient bound, so on in-bounds inputs it computes exactly the result of
the Rust recursion.
-/

namespace Minesweeper

/-- `CellState` from src/grid.rs. -/
inductive CellState where
  | Covered : CellState
  | Exposed : CellState
  | Flagged : CellState
deriving DecidableEq

/-- `BoardState` from src/grid.rs. -/
inductive BoardState where
  | InProgress : BoardState
  | Cleared : BoardState
  | Detonated : BoardState
deriving DecidableEq

/-- `Cell` from src/grid.rs (fields `state`, `has_mine`, `neighboring_mines`,
`x`, `y`). -/
structure Cell where
  state : CellState
  has_mine : Bool
  neighboring_mines : Nat
  x : Int
  y : Int
deriving DecidableEq

instance : Inhabited Cell := ⟨⟨CellState.Covered, false, 0, 0, 0⟩⟩

/-- `Cell::new` from src/grid.rs. -/
def Cell.new (state : CellState) (has_mine : Bool) (neighboring_mines : Nat)
    (x y : Int) : Cell :=
  ⟨state, has_mine, neighboring_mines, x, y⟩

/-- `Grid` from src/grid.rs. -/
structure Grid where
  cells : List Cell
  width : Int
  height : Int
deriving DecidableEq

/-- `NEIGHBOR_OFFSETS` from src/grid.rs, in source order. -/
def NEIGHBOR_OFFSETS : List (Int × Int) :=
  [(-1, -1), (0, -1), (1, -1), (1, 0), (1, 1), (0, 1), (-1, 1), (-1, 0)]

/-- `Grid::coord_to_index` from src/grid.rs: `Some (x + y*width)` when the
coordinate is in bounds, `None` otherwise. -/
def Grid.coord_to_index (g : Grid) (x y : Int) : Option Nat :=
  if 0 ≤ x ∧ x < g.width ∧ 0 ≤ y ∧ y < g.height then
    some (x + y * g.width).toNat
  else
    none

/-- Reading `self.cells[i]`.  All reads in the source go through indices
produced by `coord_to_index`, which are in range on well-formed grids, so the
default value is never observed there. -/
def Grid.cellAt (g : Grid) (i : Nat) : Cell :=
  g.cells.getD i default

/-- Writing `self.cells[i] = c`. -/
def Grid.setCell (g : Grid) (i : Nat) (c : Cell) : Grid :=
  { g with cells := g.cells.set i c }

/-- Writing `self.cells[i].state = s`. -/
def Grid.setState (g : Grid) (i : Nat) (s : CellState) : Grid :=
  g.setCell i { g.cellAt i with state := s }

/-- `Grid::new` from src/grid.rs: push one covered, mine-free cell per
coordinate, `y` outer and `x` inner.  A non-positive dimension yields an
empty range, exactly as Rust's `0..n` does. -/
def Grid.new (width height : Int) : Grid :=
  { cells :=
      (List.range height.toNat).foldl (fun acc yn =>
        (List.range width.toNat).foldl (fun acc2 xn =>
          acc2 ++ [Cell.new CellState.Covered false 0 (xn : Int) (yn : Int)]) acc) [],
    width := width,
    height := height }

/-- One iteration of the nested loop body of `Grid::uncover_bombs`: the
`unwrap` on `coord_to_index` cannot fail because the loop ranges over exactly
the in-bounds coordinates, so the `none` branch is unreachable. -/
def bombStep (gx : Grid) (xn yn : Nat) : Grid :=
  match gx.coord_to_index (xn : Int) (yn : Int) with
  | none => gx
  | some index =>
    if (gx.cellAt index).has_mine then gx.setState index CellState.Exposed else gx

/-- The inner (`x`) loop of `Grid::uncover_bombs`. -/
def bombRow (gy : Grid) (yn : Nat) : Grid :=
  (List.range gy.width.toNat).foldl (fun gx xn => bombStep gx xn yn) gy

/-- `Grid::uncover_bombs` from src/grid.rs: expose every mined cell. -/
def Grid.uncover_bombs (g : Grid) : Grid :=
  (List.range g.height.toNat).foldl (fun gy yn => bombRow gy yn) g

/-- `Grid::get` from src/grid.rs. -/
def Grid.get (g : Grid) (x y : Int) : Option Cell :=
  (g.coord_to_index x y).map fun index => g.cellAt index

/-- `Grid::get_neighbors` from src/grid.rs, including the source's
`if x == 0 && y == 0 { continue; }` test on the cell's own coordinate. -/
def Grid.get_neighbors (g : Grid) (x y : Int) : List Cell :=
  NEIGHBOR_OFFSETS.foldl (fun acc p =>
    if x = 0 ∧ y = 0 then acc
    else
      match g.coord_to_index (x + p.1) (y + p.2) with
      | none => acc
      | some index => acc ++ [g.cellAt index]) []

/-- `Grid::toggle_flag` from src/grid.rs.  `none` models the panic of
`coord_to_index(x, y).unwrap()` on an out-of-bounds coordinate. -/
def Grid.toggle_flag (g : Grid) (x y : Int) : Option (Grid × Int) :=
  match g.coord_to_index x y with
  | none => none
  | some index =>
    match (g.cellAt index).state with
    | CellState.Flagged => some (g.setState index CellState.Covered, -1)
    | CellState.Covered => some (g.setState index CellState.Flagged, 1)
    | CellState.Exposed => some (g, 0)

/-- `Grid::place_mine` from src/grid.rs, including the source's
`if x == 0 && y == 0 { continue; }` test in the neighbor-update loop.
`none` models the panic of the `unwrap` on an out-of-bounds coordinate. -/
def Grid.place_mine (g : Grid) (x y : Int) : Option Grid :=
  match g.coord_to_index x y with
  | none => none
  | some index =>
    let ga := g.setCell index { g.cellAt index with has_mine := true }
    let cnt := ((ga.get_neighbors x y).filter fun c => c.has_mine).length
    let gb := ga.setCell index { ga.cellAt index with neighboring_mines := cnt }
    some (NEIGHBOR_OFFSETS.foldl (fun gacc p =>
      if x = 0 ∧ y = 0 then gacc
      else
        match gacc.coord_to_index (x + p.1) (y + p.2) with
        | none => gacc
        | some ni =>
          gacc.setCell ni
            { gacc.cellAt ni with
              neighboring_mines := (gacc.cellAt ni).neighboring_mines + 1 }) gb)

/-- One iteration of the neighbor loop inside `Grid::uncover`, parameterized
by the recursive call `rec`.  A `none` accumulator (a panic or exhausted fuel
inside an earlier recursive call) is propagated. -/
def uncoverStep (rec : Grid → Int → Int → Option (Grid × BoardState))
    (x y : Int) (acc : Option Grid) (p : Int × Int) : Option Grid :=
  match acc with
  | none => none
  | some gcur =>
    match gcur.coord_to_index (x + p.1) (y + p.2) with
    | none => some gcur
    | some ni =>
      if (gcur.cellAt ni).state = CellState.Covered ∧ (gcur.cellAt ni).has_mine = false then
        match rec gcur (x + p.1) (y + p.2) with
        | none => none
        | some g2 => some g2.1
      else some gcur

/-- `Grid::uncover` from src/grid.rs with an explicit fuel bounding the
recursion depth.  `none` is the panic of the top-level `unwrap` on an
out-of-bounds coordinate, or exhausted fuel; `uncoverF_isSome_of_fuel` below
shows the fuel used by `Grid.uncover` never runs out. -/
def uncoverF : Nat → Grid → Int → Int → Option (Grid × BoardState)
  | 0, _, _, _ => none
  | fuel + 1, g, x, y =>
    match g.coord_to_index x y with
    | none => none
    | some index =>
      let g1 := g.setState index CellState.Exposed
      if (g1.cellAt index).has_mine then
        some (g1.uncover_bombs, BoardState.Detonated)
      else
        if (g1.cellAt index).neighboring_mines = 0 ∧ (g1.cellAt index).has_mine = false then
          match NEIGHBOR_OFFSETS.foldl
              (uncoverStep (fun g' a b => uncoverF fuel g' a b) x y) (some g1) with
          | none => none
          | some g2 => some (g2, BoardState.InProgress)
        else some (g1, BoardState.InProgress)

/-- The number of Covered cells; used only as fuel for the flood-fill
recursion, whose depth it bounds. -/
def Grid.coveredCount (g : Grid) : Nat :=
  g.cells.countP fun c => decide (c.state = CellState.Covered)

/-- `Grid::uncover` from src/grid.rs.  The fuel `coveredCount + 1` is proved
sufficient below, so on in-bounds coordinates this equals the Rust
recursion's result and on out-of-bounds coordinates it is `none` (panic). -/
def Grid.uncover (g : Grid) (x y : Int) : Option (Grid × BoardState) :=
  uncoverF (g.coveredCount + 1) g x y

/-- A grid is well formed when its cell list has exactly `width * height`
entries; every grid built by `Grid.new` is. -/
def Grid.wellFormed (g : Grid) : Prop :=
  0 ≤ g.width ∧ 0 ≤ g.height ∧ g.cells.length = g.width.toNat * g.height.toNat

instance (g : Grid) : Decidable g.wellFormed :=
  inferInstanceAs (Decidable (0 ≤ g.width ∧ 0 ≤ g.height ∧
    g.cells.length = g.width.toNat * g.height.toNat))

/-- `PlayState` from src/game.rs; `Duration` becomes a `Nat` tick count. -/
inductive PlayState where
  | Unstarted : PlayState
  | Playing : Nat → PlayState
  | Won : Nat → PlayState
  | Lost : Nat → PlayState
deriving DecidableEq

/-- The mouse buttons distinguished by src/game.rs. -/
inductive MouseButton where
  | Left : MouseButton
  | Right : MouseButton
  | Other : MouseButton
deriving DecidableEq

/-- `GameState` from src/game.rs, without the render-only sprite sheet. -/
structure GameState where
  total_mines : Int
  total_flags : Int
  turns : Int
  play_state : PlayState
  grid : Grid
deriving DecidableEq

/-- `GameState::mouse_button_down_event` from src/game.rs.  The pixel-to-grid
conversion (floating point) is abstracted into the already-converted
`grid_x`, `grid_y` and the boolean `in_board_area` standing for the test
`y >= 24.0 * UI_SCALE`; `time_since_start` is abstracted into `now`.  `none`
models a panic inside `uncover` or `toggle_flag` (out-of-bounds unwrap). -/
def mouse_button_down_event (s : GameState) (now : Nat) (button : MouseButton)
    (grid_x grid_y : Int) (in_board_area : Bool) : Option GameState :=
  match button with
  | MouseButton.Left =>
    if in_board_area then
      let s1 := if s.play_state = PlayState.Unstarted then
          { s with play_state := PlayState.Playing now }
        else s
      match s1.grid.uncover grid_x grid_y with
      | none => none
      | some (g', outcome) =>
        let s2 := { s1 with grid := g' }
        let s3 :=
          match outcome with
          | BoardState.InProgress => s2
          | BoardState.Cleared => { s2 with play_state := PlayState.Won now }
          | BoardState.Detonated => { s2 with play_state := PlayState.Lost now }
        some { s3 with turns := s3.turns + 1 }
    else some s
  | MouseButton.Right =>
    match s.grid.toggle_flag grid_x grid_y with
    | none => none
    | some (g', delta) =>
      some { s with grid := g', total_flags := s.total_flags + delta }
  | MouseButton.Other => some s

/-! ### List helpers -/

theorem getD_set_self {α : Type} (l : List α) (i : Nat) (a d : α)
    (h : i < l.length) : (l.set i a).getD i d = a := by
  induction l generalizing i with
  | nil => simp at h
  | cons b t ih =>
    cases i with
    | zero => rfl
    | succ j => exact ih j (by simpa using h)

theorem getD_set_ne {α : Type} (l : List α) (i j : Nat) (a d : α)
    (h : i ≠ j) : (l.set i a).getD j d = l.getD j d := by
  induction l generalizing i j with
  | nil => rfl
  | cons b t ih =>
    cases i with
    | zero =>
      cases j with
      | zero => exact absurd rfl h
      | succ k => rfl
    | succ i' =>
      cases j with
      | zero => rfl
      | succ k => exact ih i' k (fun hh => h (by rw [hh]))

theorem set_of_length_le {α : Type} (l : List α) (i : Nat) (a : α)
    (h : l.length ≤ i) : l.set i a = l := by
  induction l generalizing i with
  | nil => rfl
  | cons b t ih =>
    cases i with
    | zero => simp at h
    | succ j => simpa using ih j (by simpa using h)

theorem getD_mem {α : Type} (l : List α) (i : Nat) (d : α)
    (h : i < l.length) : l.getD i d ∈ l := by
  induction l generalizing i with
  | nil => simp at h
  | cons b t ih =>
    cases i with
    | zero => simp [List.getD]
    | succ j => exact List.mem_cons_of_mem b (ih j (by simpa using h))

theorem countP_set_balance {α : Type} (p : α → Bool) (l : List α) (i : Nat)
    (a d : α) (h : i < l.length) :
    (l.set i a).countP p + (if p (l.getD i d) then 1 else 0) =
      l.countP p + (if p a then 1 else 0) := by
  induction l generalizing i with
  | nil => simp at h
  | cons b t ih =>
    cases i with
    | zero => simp [List.countP_cons, List.getD]; omega
    | succ j =>
      have hj := ih j (by simpa using h)
      simp only [List.set, List.countP_cons, List.getD_cons_succ]
      omega

theorem countP_le_pointwise {α : Type} (p : α → Bool) (d : α) :
    ∀ (l l' : List α), l.length = l'.length →
      (∀ i, i < l.length → p (l'.getD i d) = true → p (l.getD i d) = true) →
      l'.countP p ≤ l.countP p := by
  intro l
  induction l with
  | nil =>
    intro l' hlen _
    cases l' with
    | nil => simp
    | cons b t => simp at hlen
  | cons a t ih =>
    intro l' hlen hpt
    cases l' with
    | nil => simp at hlen
    | cons b t' =>
      have h0 : p b = true → p a = true := by
        have := hpt 0 (by simp)
        simpa [List.getD] using this
      have ht := ih t' (by simpa using hlen)
        (fun i hi => by simpa using hpt (i + 1) (by simpa using hi))
      simp only [List.countP_cons]
      by_cases hb : p b = true
      · simp [hb, h0 hb]; omega
      · simp [Bool.of_not_eq_true hb]
        by_cases ha : p a = true <;> simp [ha] <;> omega

theorem foldl_induction {α β : Type} (f : β → α → β) (b : β) (l : List α)
    (P : β → Prop) (hb : P b) (hf : ∀ bb aa, P bb → P (f bb aa)) :
    P (l.foldl f b) := by
  induction l generalizing b with
  | nil => exact hb
  | cons a t ih => exact ih (f b a) (hf b a hb)

/-! ### The frame relation: a step of the flood fill or the bomb reveal only
turns cell states into `Exposed` and never touches any other field. -/

/-- Relation between a cell before and after a state-exposing mutation. -/
def cellFrame (c c' : Cell) : Prop :=
  c'.has_mine = c.has_mine ∧ c'.neighboring_mines = c.neighboring_mines ∧
  c'.x = c.x ∧ c'.y = c.y ∧
  (c'.state = c.state ∨ c'.state = CellState.Exposed)

theorem cellFrame_refl (c : Cell) : cellFrame c c :=
  ⟨rfl, rfl, rfl, rfl, Or.inl rfl⟩

theorem cellFrame_trans {a b c : Cell} (h1 : cellFrame a b) (h2 : cellFrame b c) :
    cellFrame a c := by
  obtain ⟨m1, n1, x1, y1, s1⟩ := h1
  obtain ⟨m2, n2, x2, y2, s2⟩ := h2
  refine ⟨m2.trans m1, n2.trans n1, x2.trans x1, y2.trans y1, ?_⟩
  rcases s2 with h | h
  · rw [h]; exact s1
  · exact Or.inr h

/-- Relation between a grid before and after a sequence of state-exposing
mutations. -/
def gridFrame (g g' : Grid) : Prop :=
  g'.width = g.width ∧ g'.height = g.height ∧
  g'.cells.length = g.cells.length ∧
  ∀ i, cellFrame (g.cellAt i) (g'.cellAt i)

theorem gridFrame_refl (g : Grid) : gridFrame g g :=
  ⟨rfl, rfl, rfl, fun _ => cellFrame_refl _⟩

theorem gridFrame_trans {a b c : Grid} (h1 : gridFrame a b) (h2 : gridFrame b c) :
    gridFrame a c :=
  ⟨h2.1.trans h1.1, h2.2.1.trans h1.2.1, h2.2.2.1.trans h1.2.2.1,
    fun i => cellFrame_trans (h1.2.2.2 i) (h2.2.2.2 i)⟩

theorem gridFrame_setState_exposed (g : Grid) (i : Nat) :
    gridFrame g (g.setState i CellState.Exposed) := by
  refine ⟨rfl, rfl, by simp [Grid.setState, Grid.setCell], fun j => ?_⟩
  by_cases hlen : i < g.cells.length
  · by_cases hij : i = j
    · subst hij
      have h1 : (g.setState i CellState.Exposed).cellAt i =
          { g.cellAt i with state := CellState.Exposed } :=
        getD_set_self g.cells i _ default hlen
      rw [h1]
      exact ⟨rfl, rfl, rfl, rfl, Or.inr rfl⟩
    · have h1 : (g.setState i CellState.Exposed).cellAt j = g.cellAt j :=
        getD_set_ne g.cells i j _ default hij
      rw [h1]
      exact cellFrame_refl _
  · have h1 : (g.setState i CellState.Exposed).cells = g.cells :=
      set_of_length_le _ _ _ (Nat.le_of_not_lt hlen)
    have h2 : (g.setState i CellState.Exposed).cellAt j = g.cellAt j := by
      show (g.setState i CellState.Exposed).cells.getD j default = g.cells.getD j default
      rw [h1]
    rw [h2]
    exact cellFrame_refl _

theorem coord_to_index_of_frame {g g' : Grid} (h : gridFrame g g') (x y : Int) :
    g'.coord_to_index x y = g.coord_to_index x y := by
  simp [Grid.coord_to_index, h.1, h.2.1]

theorem frame_has_mine {g g' : Grid} (h : gridFrame g g') (i : Nat) :
    (g'.cellAt i).has_mine = (g.cellAt i).has_mine :=
  (h.2.2.2 i).1

theorem frame_neighboring_mines {g g' : Grid} (h : gridFrame g g') (i : Nat) :
    (g'.cellAt i).neighboring_mines = (g.cellAt i).neighboring_mines :=
  (h.2.2.2 i).2.1

theorem frame_exposed_mono {g g' : Grid} (h : gridFrame g g') (i : Nat)
    (he : (g.cellAt i).state = CellState.Exposed) :
    (g'.cellAt i).state = CellState.Exposed := by
  rcases (h.2.2.2 i).2.2.2.2 with hs | hs
  · rw [hs, he]
  · exact hs

theorem frame_covered_of_covered {g g' : Grid} (h : gridFrame g g') (i : Nat)
    (hc : (g'.cellAt i).state = CellState.Covered) :
    (g.cellAt i).state = CellState.Covered := by
  rcases (h.2.2.2 i).2.2.2.2 with hs | hs
  · rw [← hs, hc]
  · rw [hc] at hs; cases hs

theorem coveredCount_le_of_frame {g g' : Grid} (h : gridFrame g g') :
    g'.coveredCount ≤ g.coveredCount := by
  refine countP_le_pointwise _ default g.cells g'.cells h.2.2.1.symm ?_
  intro i _ hp
  have hc : (g'.cellAt i).state = CellState.Covered := by
    simpa [Grid.cellAt] using of_decide_eq_true hp
  have := frame_covered_of_covered h i hc
  simpa [Grid.cellAt] using decide_eq_true this

theorem wellFormed_of_frame {g g' : Grid} (hwf : g.wellFormed)
    (h : gridFrame g g') : g'.wellFormed := by
  refine ⟨?_, ?_, ?_⟩
  · rw [h.1]; exact hwf.1
  · rw [h.2.1]; exact hwf.2.1
  · rw [h.2.2.1, h.1, h.2.1]; exact hwf.2.2

/-! ### Index bounds and covered-cell counting -/

theorem coord_to_index_some {g : Grid} {x y : Int} {i : Nat}
    (h : g.coord_to_index x y = some i) :
    0 ≤ x ∧ x < g.width ∧ 0 ≤ y ∧ y < g.height ∧ i = (x + y * g.width).toNat := by
  by_cases hb : 0 ≤ x ∧ x < g.width ∧ 0 ≤ y ∧ y < g.height
  · refine ⟨hb.1, hb.2.1, hb.2.2.1, hb.2.2.2, ?_⟩
    simp only [Grid.coord_to_index, if_pos hb] at h
    exact (Option.some_injective _ h).symm
  · simp only [Grid.coord_to_index, if_neg hb] at h
    cases h

theorem coord_to_index_lt {g : Grid} {x y : Int} {i : Nat}
    (hwf : g.wellFormed) (h : g.coord_to_index x y = some i) :
    i < g.cells.length := by
  obtain ⟨hx0, hxw, hy0, hyh, hi⟩ := coord_to_index_some h
  obtain ⟨hw, hh, hlen⟩ := hwf
  have hA : x + y * g.width < g.width * g.height := by nlinarith
  have hcast : g.width * g.height = ((g.width.toNat * g.height.toNat : Nat) : Int) := by
    push_cast
    rw [Int.toNat_of_nonneg hw, Int.toNat_of_nonneg hh]
  have hnn : 0 ≤ x + y * g.width :=
    add_nonneg hx0 (mul_nonneg hy0 hw)
  rw [hlen, hi]
  have hfin : ((x + y * g.width).toNat : Int) <
      ((g.width.toNat * g.height.toNat : Nat) : Int) := by
    rw [Int.toNat_of_nonneg hnn, ← hcast]
    exact hA
  exact_mod_cast hfin

theorem coveredCount_pos {g : Grid} {i : Nat} (hlen : i < g.cells.length)
    (hc : (g.cellAt i).state = CellState.Covered) : 0 < g.coveredCount := by
  have hmem : g.cellAt i ∈ g.cells := getD_mem _ _ _ hlen
  have hex : ∃ c ∈ g.cells, decide (c.state = CellState.Covered) = true :=
    ⟨g.cellAt i, hmem, decide_eq_true hc⟩
  exact List.countP_pos_iff.mpr hex

theorem coveredCount_setState_exposed {g : Grid} {i : Nat}
    (hlen : i < g.cells.length) (hc : (g.cellAt i).state = CellState.Covered) :
    (g.setState i CellState.Exposed).coveredCount + 1 = g.coveredCount := by
  have h := countP_set_balance (fun c => decide (c.state = CellState.Covered))
    g.cells i { g.cellAt i with state := CellState.Exposed } default hlen
  have e1 : g.cells.getD i default = g.cellAt i := rfl
  simp only [e1, hc, decide_eq_true_eq] at h
  simp only [Grid.coveredCount, Grid.setState, Grid.setCell]
  simp at h
  omega

theorem coveredCount_le_length (g : Grid) : g.coveredCount ≤ g.cells.length :=
  List.countP_le_length _

/-! ### The bomb-reveal loop exposes every mined cell -/

theorem bombStep_frame (gx : Grid) (xn yn : Nat) : gridFrame gx (bombStep gx xn yn) := by
  unfold bombStep
  split
  · exact gridFrame_refl _
  · split
    · exact gridFrame_setState_exposed _ _
    · exact gridFrame_refl _

theorem bombRow_frame (gy : Grid) (yn : Nat) : gridFrame gy (bombRow gy yn) := by
  unfold bombRow
  exact foldl_induction _ _ _ (fun gg => gridFrame gy gg) (gridFrame_refl _)
    (fun gg xn hg => gridFrame_trans hg (bombStep_frame gg xn yn))

theorem uncover_bombs_frame (g : Grid) : gridFrame g g.uncover_bombs := by
  unfold Grid.uncover_bombs
  exact foldl_induction _ _ _ (fun gg => gridFrame g gg) (gridFrame_refl _)
    (fun gg yn hg => gridFrame_trans hg (bombRow_frame gg yn))

theorem bombStep_exposes {gx : Grid} {xn yn : Nat} {i : Nat}
    (hidx : gx.coord_to_index (xn : Int) (yn : Int) = some i)
    (hlen : i < gx.cells.length)
    (hm : (gx.cellAt i).has_mine = true) :
    ((bombStep gx xn yn).cellAt i).state = CellState.Exposed := by
  unfold bombStep
  simp only [hidx]
  rw [if_pos hm]
  have h1 : (gx.setState i CellState.Exposed).cellAt i =
      { gx.cellAt i with state := CellState.Exposed } :=
    getD_set_self gx.cells i _ default hlen
  rw [h1]

theorem bombRowAux_exposes (yn : Nat) :
    ∀ (m : Nat) (gy : Grid) (x0 : Nat) (i : Nat),
      x0 < m → (m : Int) ≤ gy.width → (yn : Int) < gy.height →
      i = ((x0 : Int) + (yn : Int) * gy.width).toNat → i < gy.cells.length →
      (gy.cellAt i).has_mine = true →
      (((List.range m).foldl (fun gx xn => bombStep gx xn yn) gy).cellAt i).state =
        CellState.Exposed := by
  intro m
  induction m with
  | zero => intro gy x0 i hx _ _ _ _ _; omega
  | succ m ih =>
    intro gy x0 i hx hm hy hi hlen hmine
    rw [List.range_succ, List.foldl_append]
    set gm := (List.range m).foldl (fun gx xn => bombStep gx xn yn) gy with hgm
    have hframe : gridFrame gy gm := by
      rw [hgm]
      exact foldl_induction _ _ _ (fun gg => gridFrame gy gg) (gridFrame_refl _)
        (fun gg xn hg => gridFrame_trans hg (bombStep_frame gg xn yn))
    simp only [List.foldl_cons, List.foldl_nil]
    by_cases hx0 : x0 < m
    · have hprev := ih gy x0 i hx0 (by omega) hy hi hlen hmine
      rw [← hgm] at hprev
      exact frame_exposed_mono (bombStep_frame gm m yn) i hprev
    · have hxm : x0 = m := by omega
      subst hxm
      have hidx : gm.coord_to_index (x0 : Int) (yn : Int) = some i := by
        have hb : 0 ≤ (x0 : Int) ∧ (x0 : Int) < gm.width ∧
            0 ≤ (yn : Int) ∧ (yn : Int) < gm.height := by
          refine ⟨by positivity, ?_, by positivity, ?_⟩
          · rw [hframe.1]; omega
          · rw [hframe.2.1]; exact hy
        simp only [Grid.coord_to_index, if_pos hb]
        rw [hframe.1, hi]
      have hlen' : i < gm.cells.length := by rw [hframe.2.2.1]; exact hlen
      have hmine' : (gm.cellAt i).has_mine = true := by
        rw [frame_has_mine hframe]; exact hmine
      exact bombStep_exposes hidx hlen' hmine'

theorem bombRow_exposes {gy : Grid} {yn x0 i : Nat}
    (hw : 0 ≤ gy.width) (hx : x0 < gy.width.toNat) (hy : (yn : Int) < gy.height)
    (hi : i = ((x0 : Int) + (yn : Int) * gy.width).toNat)
    (hlen : i < gy.cells.length) (hmine : (gy.cellAt i).has_mine = true) :
    ((bombRow gy yn).cellAt i).state = CellState.Exposed := by
  unfold bombRow
  exact bombRowAux_exposes yn gy.width.toNat gy x0 i hx (by omega) hy hi hlen hmine

theorem bombsAux_exposes :
    ∀ (k : Nat) (g : Grid) (x0 yn i : Nat),
      0 ≤ g.width → yn < k → (k : Int) ≤ g.height → x0 < g.width.toNat →
      i = ((x0 : Int) + (yn : Int) * g.width).toNat → i < g.cells.length →
      (g.cellAt i).has_mine = true →
      (((List.range k).foldl (fun gg y2 => bombRow gg y2) g).cellAt i).state =
        CellState.Exposed := by
  intro k
  induction k with
  | zero => intro g x0 yn i _ hy _ _ _ _ _; omega
  | succ k ih =>
    intro g x0 yn i hw hy hk hx hi hlen hmine
    rw [List.range_succ, List.foldl_append]
    set gk := (List.range k).foldl (fun gg y2 => bombRow gg y2) g with hgk
    have hframe : gridFrame g gk := by
      rw [hgk]
      exact foldl_induction _ _ _ (fun gg => gridFrame g gg) (gridFrame_refl _)
        (fun gg y2 hg => gridFrame_trans hg (bombRow_frame gg y2))
    simp only [List.foldl_cons, List.foldl_nil]
    by_cases hyk : yn < k
    · have hprev := ih g x0 yn i hw hyk (by omega) hx hi hlen hmine
      rw [← hgk] at hprev
      exact frame_exposed_mono (bombRow_frame gk k) i hprev
    · have hyn : yn = k := by omega
      subst hyn
      have hw' : 0 ≤ gk.width := by rw [hframe.1]; exact hw
      have hx' : x0 < gk.width.toNat := by rw [hframe.1]; exact hx
      have hy' : (yn : Int) < gk.height := by rw [hframe.2.1]; omega
      have hi' : i = ((x0 : Int) + (yn : Int) * gk.width).toNat := by
        rw [hframe.1]; exact hi
      have hlen' : i < gk.cells.length := by rw [hframe.2.2.1]; exact hlen
      have hmine' : (gk.cellAt i).has_mine = true := by
        rw [frame_has_mine hframe]; exact hmine
      exact bombRow_exposes hw' hx' hy' hi' hlen' hmine'

theorem uncover_bombs_exposes_mined {g : Grid} (hwf : g.wellFormed) :
    ∀ i, i < g.cells.length → (g.cellAt i).has_mine = true →
      ((g.uncover_bombs).cellAt i).state = CellState.Exposed := by
  intro i hlen hmine
  obtain ⟨hw, hh, hlength⟩ := hwf
  have hwpos : 0 < g.width.toNat := by
    rcases Nat.eq_zero_or_pos g.width.toNat with h0 | h0
    · rw [hlength, h0] at hlen; omega
    · exact h0
  set x0 := i % g.width.toNat with hx0
  set yn := i / g.width.toNat with hyn
  have hx : x0 < g.width.toNat := Nat.mod_lt _ hwpos
  have hy : yn < g.height.toNat := by
    rw [hyn]
    rw [hlength] at hlen
    refine (Nat.div_lt_iff_lt_mul hwpos).mpr ?_
    rw [Nat.mul_comm] at hlen
    exact hlen
  have hsplit : x0 + yn * g.width.toNat = i := Nat.mod_add_div' i g.width.toNat
  have hwcast : g.width = (g.width.toNat : Int) := (Int.toNat_of_nonneg hw).symm
  have hi : i = ((x0 : Int) + (yn : Int) * g.width).toNat := by
    rw [hwcast]
    have hc2 : ((x0 : Int) + (yn : Int) * (g.width.toNat : Int)) =
        ((x0 + yn * g.width.toNat : Nat) : Int) := by push_cast; ring
    rw [hc2, Int.toNat_natCast, hsplit]
  unfold Grid.uncover_bombs
  exact bombsAux_exposes g.height.toNat g x0 yn i hw hy (by omega) hx hi hlen hmine

/-! ### The flood fill only exposes cells, and its fuel never runs out -/

theorem uncoverStep_preserve (fuel : Nat) (x y : Int) (g1 : Grid)
    (hrec : ∀ gg a b r, uncoverF fuel gg a b = some r → gridFrame gg r.1)
    (acc : Option Grid) (p : Int × Int)
    (hP : ∀ gcur, acc = some gcur → gridFrame g1 gcur) :
    ∀ gout, uncoverStep (fun g' a b => uncoverF fuel g' a b) x y acc p = some gout →
      gridFrame g1 gout := by
  intro gout hout
  unfold uncoverStep at hout
  cases acc with
  | none => cases hout
  | some gcur =>
    have hframe := hP gcur rfl
    cases hni : gcur.coord_to_index (x + p.1) (y + p.2) with
    | none =>
      simp only [hni] at hout
      cases hout
      exact hframe
    | some ni =>
      simp only [hni] at hout
      split at hout
      · cases hrec2 : uncoverF fuel gcur (x + p.1) (y + p.2) with
        | none => rw [hrec2] at hout; cases hout
        | some r2 =>
          rw [hrec2] at hout
          cases hout
          exact gridFrame_trans hframe (hrec gcur (x + p.1) (y + p.2) r2 hrec2)
      · cases hout
        exact hframe

theorem uncoverF_frame : ∀ (fuel : Nat) (g : Grid) (x y : Int) (r : Grid × BoardState),
    uncoverF fuel g x y = some r → gridFrame g r.1 := by
  intro fuel
  induction fuel with
  | zero =>
    intro g x y r h
    simp only [uncoverF] at h
    cases h
  | succ fuel ih =>
    intro g x y r h
    simp only [uncoverF] at h
    cases hidx : g.coord_to_index x y with
    | none => rw [hidx] at h; cases h
    | some index =>
      rw [hidx] at h
      simp only at h
      have hf1 : gridFrame g (g.setState index CellState.Exposed) :=
        gridFrame_setState_exposed g index
      split at h
      · cases h
        exact gridFrame_trans hf1 (uncover_bombs_frame _)
      · split at h
        · cases hf2 : NEIGHBOR_OFFSETS.foldl
              (uncoverStep (fun g' a b => uncoverF fuel g' a b) x y)
              (some (g.setState index CellState.Exposed)) with
          | none => rw [hf2] at h; cases h
          | some g2 =>
            rw [hf2] at h
            cases h
            have hinv := foldl_induction
              (uncoverStep (fun g' a b => uncoverF fuel g' a b) x y)
              (some (g.setState index CellState.Exposed)) NEIGHBOR_OFFSETS
              (fun acc => ∀ gcur, acc = some gcur →
                gridFrame (g.setState index CellState.Exposed) gcur)
              (fun gcur hg => by cases hg; exact gridFrame_refl _)
              (fun acc p hP => uncoverStep_preserve fuel x y _ (fun gg a b rr hh =>
                ih gg a b rr hh) acc p hP)
            exact gridFrame_trans hf1 (hinv g2 hf2)
        · cases h
          exact hf1

theorem uncoverStep_some (fuel : Nat) (x y : Int) (g1 : Grid)
    (hwf1 : g1.wellFormed) (hcc1 : g1.coveredCount ≤ fuel)
    (hrecsome : ∀ gg a b idx2, gg.wellFormed → gg.coord_to_index a b = some idx2 →
      (gg.cellAt idx2).state = CellState.Covered → gg.coveredCount ≤ fuel →
      (uncoverF fuel gg a b).isSome)
    (acc : Option Grid) (p : Int × Int)
    (hP : ∃ gcur, acc = some gcur ∧ gridFrame g1 gcur) :
    ∃ gout, uncoverStep (fun g' a b => uncoverF fuel g' a b) x y acc p = some gout ∧
      gridFrame g1 gout := by
  obtain ⟨gcur, hacc, hframe⟩ := hP
  subst hacc
  cases hni : gcur.coord_to_index (x + p.1) (y + p.2) with
  | none =>
    refine ⟨gcur, ?_, hframe⟩
    unfold uncoverStep
    simp only [hni]
  | some ni =>
    by_cases hguard : (gcur.cellAt ni).state = CellState.Covered ∧
        (gcur.cellAt ni).has_mine = false
    · have hwfcur : gcur.wellFormed := wellFormed_of_frame hwf1 hframe
      have hcccur : gcur.coveredCount ≤ fuel :=
        le_trans (coveredCount_le_of_frame hframe) hcc1
      have hsome := hrecsome gcur (x + p.1) (y + p.2) ni hwfcur hni hguard.1 hcccur
      cases hrec2 : uncoverF fuel gcur (x + p.1) (y + p.2) with
      | none => rw [hrec2] at hsome; cases hsome
      | some r2 =>
        refine ⟨r2.1, ?_,
          gridFrame_trans hframe (uncoverF_frame fuel gcur (x + p.1) (y + p.2) r2 hrec2)⟩
        unfold uncoverStep
        simp only [hni]
        rw [if_pos hguard, hrec2]
    · refine ⟨gcur, ?_, hframe⟩
      unfold uncoverStep
      simp only [hni]
      rw [if_neg hguard]

theorem uncoverF_succ_isSome (fuel : Nat) (g : Grid) (x y : Int) (index : Nat)
    (hrecsome : ∀ gg a b idx2, gg.wellFormed → gg.coord_to_index a b = some idx2 →
      (gg.cellAt idx2).state = CellState.Covered → gg.coveredCount ≤ fuel →
      (uncoverF fuel gg a b).isSome)
    (hidx : g.coord_to_index x y = some index)
    (hwf1 : (g.setState index CellState.Exposed).wellFormed)
    (hcc1 : (g.setState index CellState.Exposed).coveredCount ≤ fuel) :
    (uncoverF (fuel + 1) g x y).isSome := by
  simp only [uncoverF, hidx]
  split
  · simp
  · split
    · have hinv := foldl_induction
        (uncoverStep (fun g' a b => uncoverF fuel g' a b) x y)
        (some (g.setState index CellState.Exposed)) NEIGHBOR_OFFSETS
        (fun acc => ∃ gcur, acc = some gcur ∧
          gridFrame (g.setState index CellState.Exposed) gcur)
        ⟨g.setState index CellState.Exposed, rfl, gridFrame_refl _⟩
        (fun acc p hP => uncoverStep_some fuel x y _ hwf1 hcc1 hrecsome acc p hP)
      obtain ⟨g2, hg2, _⟩ := hinv
      rw [hg2]
      simp
    · simp

theorem uncoverF_isSome_covered : ∀ (fuel : Nat) (g : Grid) (x y : Int) (index : Nat),
    g.wellFormed → g.coord_to_index x y = some index →
    (g.cellAt index).state = CellState.Covered → g.coveredCount ≤ fuel →
    (uncoverF fuel g x y).isSome := by
  intro fuel
  induction fuel with
  | zero =>
    intro g x y index hwf hidx hcov hcc
    exfalso
    have := coveredCount_pos (coord_to_index_lt hwf hidx) hcov
    omega
  | succ fuel ih =>
    intro g x y index hwf hidx hcov hcc
    have hlen : index < g.cells.length := coord_to_index_lt hwf hidx
    have hdec : (g.setState index CellState.Exposed).coveredCount + 1 = g.coveredCount :=
      coveredCount_setState_exposed hlen hcov
    exact uncoverF_succ_isSome fuel g x y index ih hidx
      (wellFormed_of_frame hwf (gridFrame_setState_exposed g index)) (by omega)

theorem uncoverF_isSome_of_fuel (fuel : Nat) (g : Grid) (x y : Int)
    (hwf : g.wellFormed) (hin : (g.coord_to_index x y).isSome)
    (hcc : g.coveredCount < fuel) : (uncoverF fuel g x y).isSome := by
  cases fuel with
  | zero => omega
  | succ fuel =>
    obtain ⟨index, hidx⟩ := Option.isSome_iff_exists.mp hin
    have hf1 : gridFrame g (g.setState index CellState.Exposed) :=
      gridFrame_setState_exposed g index
    exact uncoverF_succ_isSome fuel g x y index
      (fun gg a b idx2 => uncoverF_isSome_covered fuel gg a b idx2) hidx
      (wellFormed_of_frame hwf hf1)
      (le_trans (coveredCount_le_of_frame hf1) (by omega))

/-! ### Helpers for `toggle_flag` -/

theorem cell_with_state_self (c : Cell) (s : CellState) (h : c.state = s) :
    ({ c with state := s } : Cell) = c := by
  cases c
  subst h
  rfl

theorem set_getD_self {α : Type} (l : List α) (i : Nat) (d : α)
    (h : i < l.length) : l.set i (l.getD i d) = l := by
  induction l generalizing i with
  | nil => rfl
  | cons b t ih =>
    cases i with
    | zero => rfl
    | succ j => simpa using ih j (by simpa using h)

theorem setState_preserves (g : Grid) (index : Nat) (s : CellState) (i : Nat) :
    ((g.setState index s).cellAt i).has_mine = (g.cellAt i).has_mine ∧
    ((g.setState index s).cellAt i).neighboring_mines = (g.cellAt i).neighboring_mines ∧
    ((g.setState index s).cellAt i).x = (g.cellAt i).x ∧
    ((g.setState index s).cellAt i).y = (g.cellAt i).y := by
  by_cases hlen : index < g.cells.length
  · by_cases hij : index = i
    · subst hij
      have h1 : (g.setState index s).cellAt index =
          { g.cellAt index with state := s } :=
        getD_set_self g.cells index _ default hlen
      rw [h1]
      exact ⟨rfl, rfl, rfl, rfl⟩
    · have h1 : (g.setState index s).cellAt i = g.cellAt i :=
        getD_set_ne g.cells index i _ default hij
      rw [h1]
      exact ⟨rfl, rfl, rfl, rfl⟩
  · have h1 : (g.setState index s).cells = g.cells :=
      set_of_length_le _ _ _ (Nat.le_of_not_lt hlen)
    have h2 : (g.setState index s).cellAt i = g.cellAt i := by
      show (g.setState index s).cells.getD i default = g.cells.getD i default
      rw [h1]
    rw [h2]
    exact ⟨rfl, rfl, rfl, rfl⟩

theorem setState_length (g : Grid) (index : Nat) (s : CellState) :
    (g.setState index s).cells.length = g.cells.length := by
  simp [Grid.setState, Grid.setCell]

theorem setState_unset (g : Grid) (index : Nat) (s s2 : CellState)
    (hlen : index < g.cells.length) (horig : (g.cellAt index).state = s2) :
    (g.setState index s).setState index s2 = g := by
  have h1 : (g.setState index s).cellAt index = { g.cellAt index with state := s } :=
    getD_set_self g.cells index _ default hlen
  have h2 : ({ (g.setState index s).cellAt index with state := s2 } : Cell) =
      g.cellAt index := by
    rw [h1]
    exact cell_with_state_self _ _ horig
  have h3 : (g.cells.set index { g.cellAt index with state := s }).set index
      (g.cellAt index) = g.cells := by
    rw [List.set_set]
    exact set_getD_self g.cells index default hlen
  show Grid.mk ((g.cells.set index { g.cellAt index with state := s }).set index
      ({ (g.setState index s).cellAt index with state := s2 })) g.width g.height = g
  rw [h2, h3]

/-! ### Claim theorems -/

/-- C1: the claim says `uncover` returns `Cleared` once every non-mine cell is
Exposed, and that on a 3x3 mine-free board `uncover(1,1)` returns `Cleared`
with all 9 cells Exposed.  The code has no win check: on that exact board the
flood fill does expose all 9 cells, yet the call returns `InProgress`; the
`Cleared` variant is never produced by `uncover`. -/
theorem scenarioA_uncover_returns_inProgress :
    ((Grid.new 3 3).uncover 1 1).map
      (fun p => (p.2, p.1.cells.all fun c => decide (c.state = CellState.Exposed)))
      = some (BoardState.InProgress, true) := by decide

/-- C2: the claim says neighbor counts always equal the number of mined
in-bounds Moore neighbors, and in particular that after `place_mine(0,0)` on
a 2x2 board the cells (0,1), (1,0), (1,1) each have count 1.  The
`if x == 0 && y == 0 { continue; }` slip in `place_mine`'s update loop skips
every neighbor update when the mine is at (0,0): all three counts stay 0
(while the mine flag itself is set). -/
theorem scenarioB_neighbor_counts_zero :
    ((Grid.new 2 2).place_mine 0 0).map
      (fun g => ((g.cellAt 0).has_mine, (g.cellAt 1).neighboring_mines,
        (g.cellAt 2).neighboring_mines, (g.cellAt 3).neighboring_mines))
      = some (true, 0, 0, 0) := by decide

/-- C3: the claim says every core operation is total on out-of-bounds
coordinates (`get` returns none, the mutators are no-ops).  In the code only
`get` propagates the `None`; `uncover`, `toggle_flag` and `place_mine` call
`coord_to_index(x, y).unwrap()`, which panics on out-of-bounds input —
modelled here by the `none` result of the embedded operations. -/
theorem oob_get_none_but_mutators_panic :
    (Grid.new 2 2).get (-1) 0 = none ∧
    (Grid.new 2 2).uncover (-1) 0 = none ∧
    (Grid.new 2 2).toggle_flag (-1) 0 = none ∧
    (Grid.new 2 2).place_mine (-1) 0 = none := by decide

/-- C4: the claim says `uncover` on a Flagged (or Exposed) cell is a no-op
returning `InProgress`.  The code sets `cells[index].state = Exposed`
unconditionally before any check, so uncovering the flagged cell of a 1x1
board changes its state from Flagged to Exposed. -/
theorem uncover_exposes_flagged_cell :
    ((Grid.new 1 1).toggle_flag 0 0).map (fun p => ((p.1.cellAt 0).state, p.2))
      = some (CellState.Flagged, 1) ∧
    (((Grid.new 1 1).setState 0 CellState.Flagged).uncover 0 0).map
      (fun p => ((p.1.cellAt 0).state, p.2))
      = some (CellState.Exposed, BoardState.InProgress) := by decide

/-- C5: uncovering an in-bounds Covered mined cell returns `Detonated`, and in
the resulting board that cell and every mined cell are Exposed. -/
theorem uncover_mine_detonates (g : Grid) (x y : Int) (index : Nat)
    (hwf : g.wellFormed) (hidx : g.coord_to_index x y = some index)
    (_hcov : (g.cellAt index).state = CellState.Covered)
    (hmine : (g.cellAt index).has_mine = true) :
    ∃ g', g.uncover x y = some (g', BoardState.Detonated) ∧
      (g'.cellAt index).state = CellState.Exposed ∧
      ∀ i, i < g'.cells.length → (g'.cellAt i).has_mine = true →
        (g'.cellAt i).state = CellState.Exposed := by
  have hlen : index < g.cells.length := coord_to_index_lt hwf hidx
  have hcell1 : (g.setState index CellState.Exposed).cellAt index =
      { g.cellAt index with state := CellState.Exposed } :=
    getD_set_self g.cells index _ default hlen
  have hmine1 : ((g.setState index CellState.Exposed).cellAt index).has_mine = true := by
    rw [hcell1]
    exact hmine
  have hf1 : gridFrame g (g.setState index CellState.Exposed) :=
    gridFrame_setState_exposed g index
  have hwf1 : (g.setState index CellState.Exposed).wellFormed :=
    wellFormed_of_frame hwf hf1
  have hfb : gridFrame (g.setState index CellState.Exposed)
      (g.setState index CellState.Exposed).uncover_bombs :=
    uncover_bombs_frame _
  refine ⟨(g.setState index CellState.Exposed).uncover_bombs, ?_, ?_, ?_⟩
  · show uncoverF (g.coveredCount + 1) g x y = _
    simp only [uncoverF, hidx]
    rw [if_pos hmine1]
  · refine uncover_bombs_exposes_mined hwf1 index ?_ hmine1
    rw [setState_length]
    exact hlen
  · intro i hilen hi
    have hilen1 : i < (g.setState index CellState.Exposed).cells.length := by
      rw [← hfb.2.2.1]
      exact hilen
    refine uncover_bombs_exposes_mined hwf1 i hilen1 ?_
    rw [← frame_has_mine hfb i]
    exact hi

/-- Witness for C5 at a concrete input: a 1x1 board whose only cell is
Covered and mined. -/
theorem uncover_mine_detonates_witness :
    ((Grid.mk [Cell.new CellState.Covered true 0 0 0] 1 1).uncover 0 0).isSome := by
  obtain ⟨g', hg', _⟩ := uncover_mine_detonates
    (Grid.mk [Cell.new CellState.Covered true 0 0 0] 1 1) 0 0 0
    (by decide) (by decide) (by decide) (by decide)
  rw [hg']
  rfl

/-- C6: the claim says Won/Lost are absorbing for the controller: after them a
mouse click changes nothing.  The handler never tests the play state before
processing a click: clicking the covered cell of a mine-free 1x1 board while
the state is `Lost 5` still uncovers the cell and increments the turn
counter. -/
theorem click_after_lost_mutates_state :
    (mouse_button_down_event
        (GameState.mk 0 0 0 (PlayState.Lost 5) (Grid.new 1 1)) 7
        MouseButton.Left 0 0 true).map
      (fun s => (s.turns, (s.grid.cellAt 0).state, s.play_state))
      = some (1, CellState.Exposed, PlayState.Lost 5) := by decide

/-- C7: on a well-formed board, `uncover` at an in-bounds coordinate
terminates: the flood-fill recursion depth is bounded by the number of
Covered cells, hence by width*height, so the recursion with that much fuel
completes (and the fuel `Grid.uncover` uses suffices). -/
theorem uncover_terminates (g : Grid) (x y : Int) (hwf : g.wellFormed)
    (hin : (g.coord_to_index x y).isSome) :
    (g.uncover x y).isSome ∧
      (uncoverF (g.width.toNat * g.height.toNat + 1) g x y).isSome := by
  constructor
  · show (uncoverF (g.coveredCount + 1) g x y).isSome
    exact uncoverF_isSome_of_fuel _ g x y hwf hin (Nat.lt_succ_self _)
  · refine uncoverF_isSome_of_fuel _ g x y hwf hin ?_
    have h1 : g.coveredCount ≤ g.cells.length := coveredCount_le_length g
    have h2 : g.cells.length = g.width.toNat * g.height.toNat := hwf.2.2
    omega

/-- Witness for C7 at a concrete input: the 2x2 fresh board at (0,0). -/
theorem uncover_terminates_witness :
    ((Grid.new 2 2).uncover 0 0).isSome ∧
      (uncoverF (2 * 2 + 1) (Grid.new 2 2) 0 0).isSome :=
  uncover_terminates (Grid.new 2 2) 0 0 (by decide) (by decide)

/-- C8: `toggle_flag` on an in-bounds cell yields +1 turning Covered to
Flagged, -1 turning Flagged to Covered, and 0 with no state change on an
Exposed cell; toggling a Covered cell twice restores the original board, for
a net counter delta of 1 + (-1) = 0. -/
theorem toggle_flag_cases (g : Grid) (x y : Int) (index : Nat)
    (hwf : g.wellFormed) (hidx : g.coord_to_index x y = some index) :
    ((g.cellAt index).state = CellState.Covered →
      g.toggle_flag x y = some (g.setState index CellState.Flagged, 1) ∧
      ((g.setState index CellState.Flagged).cellAt index).state = CellState.Flagged ∧
      (g.setState index CellState.Flagged).toggle_flag x y = some (g, -1)) ∧
    ((g.cellAt index).state = CellState.Flagged →
      g.toggle_flag x y = some (g.setState index CellState.Covered, -1) ∧
      ((g.setState index CellState.Covered).cellAt index).state = CellState.Covered) ∧
    ((g.cellAt index).state = CellState.Exposed →
      g.toggle_flag x y = some (g, 0)) := by
  have hlen : index < g.cells.length := coord_to_index_lt hwf hidx
  refine ⟨?_, ?_, ?_⟩
  · intro hc
    have hflag : ((g.setState index CellState.Flagged).cellAt index) =
        { g.cellAt index with state := CellState.Flagged } :=
      getD_set_self g.cells index _ default hlen
    refine ⟨?_, by rw [hflag], ?_⟩
    · unfold Grid.toggle_flag
      simp only [hidx, hc]
    · have hidx2 : (g.setState index CellState.Flagged).coord_to_index x y =
          some index := hidx
      unfold Grid.toggle_flag
      simp only [hidx2, hflag]
      rw [setState_unset g index CellState.Flagged CellState.Covered hlen hc]
  · intro hc
    have hcov : ((g.setState index CellState.Covered).cellAt index) =
        { g.cellAt index with state := CellState.Covered } :=
      getD_set_self g.cells index _ default hlen
    refine ⟨?_, by rw [hcov]⟩
    unfold Grid.toggle_flag
    simp only [hidx, hc]
  · intro hc
    unfold Grid.toggle_flag
    simp only [hidx, hc]

/-- Witness for C8 at a concrete input: the 1x1 fresh board, whose only cell
is Covered. -/
theorem toggle_flag_cases_witness :
    (Grid.new 1 1).toggle_flag 0 0 =
      some ((Grid.new 1 1).setState 0 CellState.Flagged, 1) ∧
    ((Grid.new 1 1).setState 0 CellState.Flagged).toggle_flag 0 0 =
      some (Grid.new 1 1, -1) := by
  have h := (toggle_flag_cases (Grid.new 1 1) 0 0 0 (by decide) (by decide)).1 (by decide)
  exact ⟨h.1, h.2.2⟩

/-- C9 counterexample: the claim says construction with non-positive
dimensions fails fast with a construction error.  `Grid::new` is a total
constructor with no error path (`pub fn new(width: i32, height: i32) -> Self`
performs no validation): at width -1 it returns an ordinary board value with
an empty cell list instead of failing. -/
theorem new_nonpositive_returns_board :
    Grid.new (-1) 2 = Grid.mk [] (-1) 2 := by decide

/-- C9 amended: `new` performs no validation and never fails; for
non-positive width or height it returns a board with an empty cell list, and
in every case (in particular for all positive dimensions) every cell of the
returned board is Covered, has no mine, and has neighboring mine count 0. -/
theorem new_unvalidated (w ht : Int) :
    ((w ≤ 0 ∨ ht ≤ 0) → (Grid.new w ht).cells = []) ∧
    (∀ c ∈ (Grid.new w ht).cells,
      c.state = CellState.Covered ∧ c.has_mine = false ∧ c.neighboring_mines = 0) := by
  constructor
  · intro hnp
    have hcase : ht.toNat = 0 ∨ w.toNat = 0 := by
      rcases hnp with hw | hh
      · right; omega
      · left; omega
    simp only [Grid.new]
    rcases hcase with h0 | h0
    · rw [h0]
      rfl
    · rw [h0]
      refine foldl_induction _ _ _ (fun acc => acc = []) rfl ?_
      intro acc yn hacc
      simpa using hacc
  · simp only [Grid.new]
    refine foldl_induction _ _ _
      (fun (acc : List Cell) => ∀ c ∈ acc, c.state = CellState.Covered ∧
        c.has_mine = false ∧ c.neighboring_mines = 0) (by simp) ?_
    intro acc yn hacc
    refine foldl_induction _ _ _
      (fun (acc2 : List Cell) => ∀ c ∈ acc2, c.state = CellState.Covered ∧
        c.has_mine = false ∧ c.neighboring_mines = 0) hacc ?_
    intro acc2 xn hacc2 c hc
    rcases List.mem_append.mp hc with hmem | hmem
    · exact hacc2 c hmem
    · have hceq : c = Cell.new CellState.Covered false 0 (xn : Int) (yn : Int) :=
        List.mem_singleton.mp hmem
      subst hceq
      exact ⟨rfl, rfl, rfl⟩

/-- Witness for C9's amended statement at concrete inputs: dimensions (-1,2)
give an empty board, and on the 2x2 board the first cell is Covered with no
mine and count 0. -/
theorem new_unvalidated_witness :
    (Grid.new (-1) 2).cells = [] ∧
    ((Grid.new 2 2).cellAt 0).state = CellState.Covered ∧
    ((Grid.new 2 2).cellAt 0).has_mine = false ∧
    ((Grid.new 2 2).cellAt 0).neighboring_mines = 0 := by
  refine ⟨(new_unvalidated (-1) 2).1 (Or.inl (by decide)), ?_⟩
  exact (new_unvalidated 2 2).2 ((Grid.new 2 2).cellAt 0) (by decide)

/-- C10: `uncover` and `toggle_flag` never change any cell's mine flag,
neighbor count, or stored coordinates; `uncover` moreover only ever turns
states into Exposed (never back to Covered or Flagged), so the Exposed set
only grows. -/
theorem uncover_toggle_frame (g : Grid) (x y : Int) :
    (∀ g' s, g.uncover x y = some (g', s) →
      g'.cells.length = g.cells.length ∧
      ∀ i, (g'.cellAt i).has_mine = (g.cellAt i).has_mine ∧
        (g'.cellAt i).neighboring_mines = (g.cellAt i).neighboring_mines ∧
        (g'.cellAt i).x = (g.cellAt i).x ∧ (g'.cellAt i).y = (g.cellAt i).y ∧
        ((g'.cellAt i).state = (g.cellAt i).state ∨
          (g'.cellAt i).state = CellState.Exposed)) ∧
    (∀ g' d, g.toggle_flag x y = some (g', d) →
      g'.cells.length = g.cells.length ∧
      ∀ i, (g'.cellAt i).has_mine = (g.cellAt i).has_mine ∧
        (g'.cellAt i).neighboring_mines = (g.cellAt i).neighboring_mines ∧
        (g'.cellAt i).x = (g.cellAt i).x ∧ (g'.cellAt i).y = (g.cellAt i).y) := by
  constructor
  · intro g' s h
    have hf := uncoverF_frame (g.coveredCount + 1) g x y (g', s) h
    exact ⟨hf.2.2.1, fun i =>
      ⟨(hf.2.2.2 i).1, (hf.2.2.2 i).2.1, (hf.2.2.2 i).2.2.1, (hf.2.2.2 i).2.2.2.1,
        (hf.2.2.2 i).2.2.2.2⟩⟩
  · intro g' d h
    unfold Grid.toggle_flag at h
    cases hidx : g.coord_to_index x y with
    | none => rw [hidx] at h; cases h
    | some index =>
      rw [hidx] at h
      simp only at h
      cases hstate : (g.cellAt index).state with
      | Covered =>
        rw [hstate] at h
        cases h
        exact ⟨setState_length g index _, fun i => setState_preserves g index _ i⟩
      | Exposed =>
        rw [hstate] at h
        cases h
        exact ⟨rfl, fun i => ⟨rfl, rfl, rfl, rfl⟩⟩
      | Flagged =>
        rw [hstate] at h
        cases h
        exact ⟨setState_length g index _, fun i => setState_preserves g index _ i⟩

/-- Witness for C10 at a concrete input: uncovering the 1x1 fresh board at
(0,0) and flag-toggling it. -/
theorem uncover_toggle_frame_witness :
    ((Grid.mk [Cell.new CellState.Exposed false 0 0 0] 1 1).cellAt 0).has_mine =
      ((Grid.new 1 1).cellAt 0).has_mine ∧
    ((Grid.mk [Cell.new CellState.Flagged false 0 0 0] 1 1).cellAt 0).neighboring_mines =
      ((Grid.new 1 1).cellAt 0).neighboring_mines := by
  have h1 := ((uncover_toggle_frame (Grid.new 1 1) 0 0).1
    (Grid.mk [Cell.new CellState.Exposed false 0 0 0] 1 1) BoardState.InProgress
    (by decide)).2 0
  have h2 := ((uncover_toggle_frame (Grid.new 1 1) 0 0).2
    (Grid.mk [Cell.new CellState.Flagged false 0 0 0] 1 1) 1
    (by decide)).2 0
  exact ⟨h1.1, h2.2.1⟩

end Minesweeper
